import Mathlib

/-!
Verification development for the attention-visualization frontend
(src/frontend/attention.js).  The JavaScript code is shallowly embedded:
JS strings are Lean strings manipulated through total char-list helpers
that implement the exact JS semantics of split / startsWith / slice /
trim / indexOf / replace used by the source, JS numbers appearing as
attention strengths and coordinates are modelled as rationals, and the
stateful session controller is modelled as a step function on an
explicit state record.  Math.cos / Math.sin are abstracted as function
parameters bounded by 1 in absolute value.
-/

namespace Attn

/-! ## String helpers (JS semantics, total over char lists) -/

/-- Characters of a string. -/
def chars (s : String) : List Char := s.data

/-- JS String.prototype.startsWith, on char lists: first argument the string,
second the prefix candidate. -/
def charsPrefix : List Char → List Char → Bool
  | _, [] => true
  | [], _ :: _ => false
  | c :: crest, p :: prest => c == p && charsPrefix crest prest

/-- JS s.startsWith(p). -/
def strStarts (s p : String) : Bool := charsPrefix s.data p.data

/-- JS s.slice(n) for ASCII content: drop the first n characters. -/
def strDropN (s : String) (n : ℕ) : String := String.mk (s.data.drop n)

/-- Accumulator loop for splitting a char list at newline characters. -/
def splitNlAux : List Char → List Char → List (List Char)
  | [], acc => [acc.reverse]
  | c :: rest, acc =>
      if c == '\n' then acc.reverse :: splitNlAux rest []
      else splitNlAux rest (c :: acc)

/-- JS s.split('\n'). -/
def strLines (s : String) : List String := (splitNlAux s.data []).map String.mk

/-- Whitespace recognized when modelling JS String.prototype.trim. -/
def isJsWhitespace (c : Char) : Bool := c == ' ' || c == '\n' || c == '\t' || c == '\r'

/-- JS s.trim(). -/
def strTrim (s : String) : String :=
  String.mk (((s.data.dropWhile isJsWhitespace).reverse.dropWhile isJsWhitespace).reverse)

/-- Concatenation of a list of strings. -/
def strConcat : List String → String
  | [] => ""
  | s :: rest => String.mk (s.data ++ (strConcat rest).data)

/-- Remove the first occurrence of "##" from a char list; this is the char-level
semantics of the JS call token.replace('##', ''). -/
def removeFirstHH : List Char → List Char
  | [] => []
  | [c] => [c]
  | '#' :: '#' :: rest => rest
  | c :: rest => c :: removeFirstHH rest

/-- JS token.replace('##', ''). -/
def cleanHH (t : String) : String := String.mk (removeFirstHH t.data)

/-! ## Small total list combinators used by the embedding -/

/-- Pair every element with its index, starting at i; this models the index
argument of JS forEach / for loops over arrays. -/
def enumFrom {α : Type} (i : ℕ) : List α → List (ℕ × α)
  | [] => []
  | a :: rest => (i, a) :: enumFrom (i + 1) rest

/-- Concatenation of the images of a list under a list-valued function. -/
def listJoinMap {α β : Type} (f : α → List β) : List α → List β
  | [] => []
  | a :: rest => f a ++ listJoinMap f rest

/-- Keep and unwrap the some-results of f, in order. -/
def listFilterMap {α β : Type} (f : α → Option β) : List α → List β
  | [] => []
  | a :: rest =>
      match f a with
      | none => listFilterMap f rest
      | some b => b :: listFilterMap f rest

/-- JS Array.prototype.indexOf (first match, -1 when absent), inner loop. -/
def jsIndexOfAux (t : String) : List String → ℤ → ℤ
  | [], _ => -1
  | x :: rest, i => if x == t then i else jsIndexOfAux t rest (i + 1)

/-- JS tokens.indexOf(t). -/
def jsIndexOf (l : List String) (t : String) : ℤ := jsIndexOfAux t l 0

/-- Bool test that a list of integers is strictly increasing. -/
def strictlyIncreasing : List ℤ → Bool
  | [] => true
  | [_] => true
  | a :: b :: rest => decide (a < b) && strictlyIncreasing (b :: rest)

/-! ## Token classifier (displayTokens, attention.js lines 263-308) -/

/-- Filter applied by displayTokens (lines 269-277): drop bracketed special
tokens, subword continuations, empty tokens and bare punctuation. -/
def isMeaningfulToken (t : String) : Bool :=
  !(strStarts t "[") && !(strStarts t "##") && decide (0 < t.length)
    && t != "." && t != "," && t != "!" && t != "?"

/-- displayTokens renders one chip per surviving token; the chip text is the
token verbatim and its data-index attribute is tokens.indexOf(token)
(line 281), i.e. the index of the FIRST occurrence of that text. -/
def displayTokensChips (tokens : List String) : List (String × ℤ) :=
  (tokens.filter isMeaningfulToken).map (fun t => (t, jsIndexOf tokens t))

/-- Exclusion predicate written from the spec's words (section 4.1): a token is
excluded when it begins with a structural-marker prefix, begins with the
subword-continuation marker, is empty, or is a bare punctuation mark. -/
def specExcludedToken (t : String) : Bool :=
  strStarts t "[" || strStarts t "##" || t.length == 0
    || t == "." || t == "," || t == "!" || t == "?"

/-! ## Token classifier of the graph view (renderAttentionVisualization,
attention.js lines 313-340) -/

/-- One entry of filteredTokenData: the raw token, the index of its position in
the raw sequence, and the display text with the first "##" removed. -/
structure TokenDatum where
  token : String
  originalIndex : ℕ
  cleanToken : String
deriving DecidableEq

/-- Filter applied by renderAttentionVisualization (lines 326-331): it requires
token.length > 1, so unlike displayTokens it also drops every
single-character token. -/
def vizKeepToken (t : String) : Bool :=
  !(strStarts t "[") && !(strStarts t "##") && decide (1 < t.length) && t != "."

/-- filteredTokenData (lines 322-331): map each token to its datum carrying the
true original index, then filter. -/
def filteredTokenData (tokens : List String) : List TokenDatum :=
  ((enumFrom 0 tokens).map (fun p => (⟨p.2, p.1, cleanHH p.2⟩ : TokenDatum))).filter
    (fun d => vizKeepToken d.token)

/-! ## Stream consumer (handleSSEStream, attention.js lines 181-214) -/

/-- Frames recovered from a single decoded chunk: the chunk is split at
newlines, lines starting with "data: " have that 6-character prefix removed,
and the remainder is handed to JSON.parse, abstracted here as the valid
predicate (a parse failure is logged and skipped). -/
def framesOfChunk (valid : String → Bool) (chunk : String) : List String :=
  listFilterMap (fun line =>
    if strStarts line "data: " then
      (if valid (strDropN line 6) then some (strDropN line 6) else none)
    else none) (strLines chunk)

/-- handleSSEStream processes every chunk independently: the chunk is split and
scanned with no carry-over buffer, so this is simply the concatenation of the
per-chunk results. -/
def handleSSEStreamFrames (valid : String → Bool) (chunks : List String) : List String :=
  listJoinMap (framesOfChunk valid) chunks

/-- Frames present in the concatenation of the whole stream; this is what a
consumer that buffers partial lines across chunk boundaries would parse. -/
def concatenatedFrames (valid : String → Bool) (chunks : List String) : List String :=
  framesOfChunk valid (strConcat chunks)

/-! ## Session controller (processText lines 141-176, handleSSEMessage lines
219-258) -/

/-- One relationship entry of the relationships payload. -/
structure Rel where
  from_token : String
  to_token : String
  strength : ℚ
deriving DecidableEq

/-- Typed stream messages, after JSON decoding. -/
inductive Msg where
  | tokenization : Msg
  | tokens : List String → Msg
  | layerAttention : ℕ → Msg
  | meaningfulAttention : List (List ℚ) → Msg
  | relationships : List Rel → Msg
  | complete : Msg
  | error : String → Msg
deriving DecidableEq

/-- Mutable fields of the AttentionVisualizer instance relevant to session
handling, plus the set of stream ids whose readers are still open.  The code
initializes eventSource to null and never assigns it, so processText's
eventSource.close() call never closes anything; openStreams therefore only
shrinks when a stream itself ends. -/
structure SessionSt where
  isProcessing : Bool
  currentTokens : List String
  currentAttention : Option (List (List ℚ))
  currentRels : List Rel
  status : String
  openStreams : List ℕ
deriving DecidableEq

/-- handleSSEMessage (lines 219-258): every message is applied to the shared
state unconditionally; no request or session identifier is consulted. -/
def handleSSEMessage (s : SessionSt) : Msg → SessionSt
  | Msg.tokenization => { s with status := "Tokenizing text..." }
  | Msg.tokens d =>
      { s with currentTokens := d, status := "Analyzing attention patterns..." }
  | Msg.layerAttention _ => { s with status := "Processing layer..." }
  | Msg.meaningfulAttention d =>
      { s with currentAttention := some d, status := "Generating visualization..." }
  | Msg.relationships d =>
      { s with currentRels := d, status := "Finalizing visualization..." }
  | Msg.complete => { s with status := "Complete!", isProcessing := false }
  | Msg.error m => { s with status := m, isProcessing := false }

/-- External events: processText invoked for a new session, a frame delivered
by the reader of an open stream, and a stream reaching end-of-data (the finally
block clearing isProcessing). -/
inductive Ev where
  | procText : ℕ → String → Ev
  | sseMsg : ℕ → Msg → Ev
  | streamEnd : ℕ → Ev
deriving DecidableEq

/-- One event step of the session controller, from the code: processText
returns immediately when isProcessing is set, otherwise sets the flag, clears
the visualization state and opens a new stream WITHOUT closing any previous
one (eventSource is always null); a frame from any still-open stream is
dispatched to handleSSEMessage with no staleness check. -/
def sessionStep (s : SessionSt) : Ev → SessionSt
  | Ev.procText sid _ =>
      if s.isProcessing then s
      else
        { s with
            isProcessing := true
            currentTokens := []
            currentAttention := none
            currentRels := []
            openStreams := sid :: s.openStreams }
  | Ev.sseMsg sid m =>
      if sid ∈ s.openStreams then handleSSEMessage s m else s
  | Ev.streamEnd sid =>
      { s with isProcessing := false, openStreams := s.openStreams.filter (fun x => x ≠ sid) }

/-- Initial state of the visualizer. -/
def initialSession : SessionSt :=
  { isProcessing := false
    currentTokens := []
    currentAttention := none
    currentRels := []
    status := ""
    openStreams := [] }

/-- Run a list of events from the initial state. -/
def runSession (evs : List Ev) : SessionSt := evs.foldl sessionStep initialSession

/-- Interleaving in which session B (id 2) starts while session A's stream
(id 1) is still open: A's backend reports an error (clearing isProcessing),
B starts, and A's still-open stream then delivers a late tokens frame. -/
def staleTrace : List Ev :=
  [ Ev.procText 1 "session A text"
  , Ev.sseMsg 1 (Msg.error "model failure")
  , Ev.procText 2 "session B text"
  , Ev.sseMsg 1 (Msg.tokens ["stale"]) ]

/-! ## Input paths (setupEventListeners lines 66-73, debounceInput lines
93-108, processText lines 141-145) -/

/-- Externally visible effects of one input-path invocation. -/
structure InputEffects where
  requests : List String
  hidVisualization : Bool
deriving DecidableEq

/-- debounceInput followed by its timer callback surviving the quiet period:
empty trimmed text hides the visualization and schedules nothing; otherwise
the callback re-checks the processing flag and the trimmed length before
calling processText with the trimmed text. -/
def debounceTimerFires (isProcessing : Bool) (text : String) : InputEffects :=
  if (strTrim text).length = 0 then { requests := [], hidVisualization := true }
  else if !isProcessing && decide (0 < (strTrim text).length) then
    { requests := [strTrim text], hidVisualization := false }
  else { requests := [], hidVisualization := false }

/-- processText (lines 141-145): the only guard is the isProcessing flag; the
text is posted as-is, with no emptiness or trimming check. -/
def processTextRequests (isProcessing : Bool) (text : String) : InputEffects :=
  if isProcessing then { requests := [], hidVisualization := false }
  else { requests := [text], hidVisualization := false }

/-- Ctrl+Enter keydown handler (lines 67-72): calls processText directly on the
raw textarea value. -/
def keydownCtrlEnter (isProcessing : Bool) (raw : String) : InputEffects :=
  processTextRequests isProcessing raw

/-! ## Positions and connections (renderWordOnlyVisualization lines 369-431,
drawWordToWordAttention lines 436-524) -/

/-- One laid-out token: coordinates, display text, index into the attention
matrix, and index into the displayed sequence. -/
structure Pos where
  x : ℚ
  y : ℚ
  token : String
  originalIndex : ℕ
  displayIndex : ℕ
deriving DecidableEq

/-- One selected attention connection; fromIndex / toIndex are the display
indices i and j of the enumeration loop. -/
structure Connection where
  fromIndex : ℕ
  toIndex : ℕ
  strength : ℚ
  fromToken : String
  toToken : String
deriving DecidableEq

/-- Candidate connections of drawWordToWordAttention (lines 440-466): all
ordered pairs of display indices (outer loop i, inner loop j, so row-major
order), skipping i = j, guarded by fromIdx < attentionMatrix.length and
toIdx < attentionMatrix[fromIdx].length (here the two Option lookups), and
kept only when the entry exceeds 0.05. -/
def candidateConnections (ps : List Pos) (m : List (List ℚ)) : List Connection :=
  listJoinMap (fun ip =>
    listFilterMap (fun jp =>
      if ip.1 = jp.1 then none
      else
        match m[ip.2.originalIndex]? with
        | none => none
        | some row =>
          match row[jp.2.originalIndex]? with
          | none => none
          | some attention =>
              if 1/20 < attention then
                some ⟨ip.1, jp.1, attention, ip.2.token, jp.2.token⟩
              else none) (enumFrom 0 ps)) (enumFrom 0 ps)

/-- Insert a into a non-increasing list, before the first element whose key is
not larger; equal keys keep the inserted (originally earlier) element first. -/
def insertDescBy {α : Type} (key : α → ℚ) (a : α) : List α → List α
  | [] => [a]
  | b :: bs => if key b ≤ key a then a :: b :: bs else b :: insertDescBy key a bs

/-- Stable descending sort by key; this is the defined result of the stable JS
Array.prototype.sort with comparator taking b.key - a.key. -/
def sortDescBy {α : Type} (key : α → ℚ) : List α → List α
  | [] => []
  | a :: rest => insertDescBy key a (sortDescBy key rest)

/-- connections.sort comparing by descending strength followed by
slice(0, Math.min(12, connections.length)) (lines 469-470). -/
def topConnections (ps : List Pos) (m : List (List ℚ)) : List Connection :=
  (sortDescBy Connection.strength (candidateConnections ps m)).take 12

/-- drawWordToWordAttention signals "No significant attention patterns between
words detected" instead of drawing when the selected set is empty
(lines 472-475); none models that signal. -/
def drawWordToWordAttention (ps : List Pos) (m : List (List ℚ)) : Option (List Connection) :=
  if (topConnections ps m).isEmpty then none else some (topConnections ps m)

/-- Bounds-safe matrix lookup through display indices, used to state that the
enumeration never reads outside the (possibly ragged) matrix. -/
def safeLookup (ps : List Pos) (m : List (List ℚ)) (i j : ℕ) : Option ℚ :=
  ps[i]?.bind (fun pi =>
    ps[j]?.bind (fun pj =>
      m[pi.originalIndex]?.bind (fun row => row[pj.originalIndex]?)))

/-! ## Layout engine (renderWordOnlyVisualization lines 369-412).  Math.cos
and Math.sin are abstracted as the function parameters cs and sn: for a call
with M displayed tokens, cs i and sn i stand for the cosine and sine of the
angle 2*pi*i/M - pi/2 of line 382, so they satisfy abs (cs i) and abs (sn i) bounded by 1. -/

/-- Minimum of a list of rationals; Math.min over the spread coordinates. -/
def listMin : List ℚ → ℚ
  | [] => 0
  | [q] => q
  | q :: r :: rest => min q (listMin (r :: rest))

/-- Maximum of a list of rationals; Math.max over the spread coordinates. -/
def listMax : List ℚ → ℚ
  | [] => 0
  | [q] => q
  | q :: r :: rest => max q (listMax (r :: rest))

/-- Positions on the circle of the given center and radius (lines 381-390 and
the identical recomputation of lines 407-411). -/
def circlePositions (tds : List TokenDatum) (cx cy r : ℚ) (cs sn : ℕ → ℚ) : List Pos :=
  (enumFrom 0 tds).map (fun p =>
    ⟨cx + r * cs p.1, cy + r * sn p.1, p.2.cleanToken, p.2.originalIndex, p.1⟩)

/-- The fixed layout padding of line 371. -/
def layoutPadding : ℚ := 50

/-- Center x-coordinate: this.width * 0.35 (line 372). -/
def layoutCenterX (W : ℚ) : ℚ := W * (35/100)

/-- Center y-coordinate: this.height * 0.45 (line 373). -/
def layoutCenterY (H : ℚ) : ℚ := H * (45/100)

/-- radius = min(maxRadiusX, maxRadiusY, 140) with
maxRadiusX = (0.6 W - padding)/2 and maxRadiusY = (H - 2 padding)/2
(lines 376-378). -/
def layoutRadius (W H : ℚ) : ℚ :=
  min (min ((W * (6/10) - layoutPadding) / 2) ((H - 2 * layoutPadding) / 2)) 140

/-- safeRadius = min((0.5 W - 2 padding)/2, (H - 2 padding)/2) * 0.8
(lines 402-405). -/
def layoutSafeRadius (W H : ℚ) : ℚ :=
  (min ((W * (5/10) - 2 * layoutPadding) / 2) ((H - 2 * layoutPadding) / 2)) * (8/10)

/-- The first-pass positions (lines 381-390). -/
def layoutFirstPass (tds : List TokenDatum) (W H : ℚ) (cs sn : ℕ → ℚ) : List Pos :=
  circlePositions tds (layoutCenterX W) (layoutCenterY H) (layoutRadius W H) cs sn

/-- The bounding-box trigger of lines 393-400: some first-pass coordinate
falls outside [padding, dim - padding]. -/
def layoutOutOfBounds (tds : List TokenDatum) (W H : ℚ) (cs sn : ℕ → ℚ) : Prop :=
  listMin ((layoutFirstPass tds W H cs sn).map Pos.x) < layoutPadding
    ∨ listMax ((layoutFirstPass tds W H cs sn).map Pos.x) > W - layoutPadding
    ∨ listMin ((layoutFirstPass tds W H cs sn).map Pos.y) < layoutPadding
    ∨ listMax ((layoutFirstPass tds W H cs sn).map Pos.y) > H - layoutPadding

instance (tds : List TokenDatum) (W H : ℚ) (cs sn : ℕ → ℚ) :
    Decidable (layoutOutOfBounds tds W H cs sn) := by
  unfold layoutOutOfBounds
  infer_instance

/-- Layout of renderWordOnlyVisualization: the first pass on the conservative
radius is kept when its bounding box fits; otherwise every position is
recomputed from the same angles with the reduced safe radius (lines 399-412).
-/
def layoutPositions (tds : List TokenDatum) (W H : ℚ) (cs sn : ℕ → ℚ) : List Pos :=
  if layoutOutOfBounds tds W H cs sn then
    circlePositions tds (layoutCenterX W) (layoutCenterY H) (layoutSafeRadius W H) cs sn
  else layoutFirstPass tds W H cs sn

/-! ## Relationship list builder (displayRelationships lines 1303-1349) -/

/-- Word filter of displayRelationships (lines 1313-1326), an inline copy of
the displayTokens exclusion conditions. -/
def isWordToken (t : String) : Bool :=
  !(strStarts t "[") && !(strStarts t "##") && decide (0 < t.length)
    && t != "." && t != "," && t != "!" && t != "?"

/-- displayRelationships: keep entries whose two tokens are words and whose
strength exceeds 0.03, sort descending by strength, take the top 8. -/
def displayRelationships (rels : List Rel) : List Rel :=
  (sortDescBy Rel.strength
    (rels.filter (fun r =>
      isWordToken r.from_token && isWordToken r.to_token
        && decide ((3:ℚ)/100 < r.strength)))).take 8

/-! ## Interaction highlighter (drawWordToWordAttention attribute setup lines
484-495 and 503-506, highlightWordConnections lines 697-730, unhighlightTokens
lines 1272-1287).  SVG renders the opacity STYLE over the opacity ATTRIBUTE
when both are present, so both layers are modelled. -/

/-- JS strength.toFixed(3) parsed back by parseFloat: rounding to 3 decimal
places, which is how data-strength is stored on each path element. -/
def toFixed3 (q : ℚ) : ℚ := (Int.floor (q * 1000 + 1/2) : ℚ) / 1000

/-- Visual state of one attention-line path element. -/
structure EdgeView where
  dataFrom : ℕ
  dataTo : ℕ
  dataStrength : ℚ
  strokeWidth : ℚ
  opacityAttr : ℚ
  opacityStyle : Option ℚ
deriving DecidableEq

/-- Visual state of one token-circle element. -/
structure NodeView where
  classes : List String
  cx : ℚ
  cy : ℚ
deriving DecidableEq

/-- Visual state of one token-label element. -/
structure LabelView where
  classes : List String
  lx : ℚ
  ly : ℚ
deriving DecidableEq

/-- Visual state of one token chip in the token list. -/
structure ChipView where
  classes : List String
deriving DecidableEq

/-- The three rendered views: chip list, graph circles and labels, edges. -/
structure GraphSt where
  chips : List ChipView
  circles : List NodeView
  labels : List LabelView
  edges : List EdgeView
deriving DecidableEq

/-- DOM classList.add: append the class when absent. -/
def classAdd (c : String) (l : List String) : List String :=
  if c ∈ l then l else l ++ [c]

/-- DOM classList.remove for one class name. -/
def classRemove (c : String) (l : List String) : List String :=
  l.filter (fun x => x != c)

/-- classList.remove of the three highlight classes. -/
def removeHighlightClasses (l : List String) : List String :=
  classRemove "target" (classRemove "source" (classRemove "highlighted" l))

/-- highlightWordConnections(tokenIndex): mark circle and label at that index,
strip highlight classes elsewhere, set every line's opacity style to 1.0 or
0.2 and its stroke width to max(4, s*18) or max(2, s*12) by incidence, with s
the parsed data-strength. -/
def highlightWordConnections (idx : ℕ) (g : GraphSt) : GraphSt :=
  { g with
      circles := (enumFrom 0 g.circles).map (fun p =>
        if p.1 = idx then { p.2 with classes := classAdd "highlighted" p.2.classes }
        else { p.2 with classes := removeHighlightClasses p.2.classes })
      labels := (enumFrom 0 g.labels).map (fun p =>
        if p.1 = idx then { p.2 with classes := classAdd "highlighted" p.2.classes }
        else { p.2 with classes := classRemove "highlighted" p.2.classes })
      edges := g.edges.map (fun e =>
        if e.dataFrom = idx ∨ e.dataTo = idx then
          { e with opacityStyle := some 1, strokeWidth := max 4 (e.dataStrength * 18) }
        else
          { e with opacityStyle := some (2/10), strokeWidth := max 2 (e.dataStrength * 12) }) }

/-- unhighlightTokens: drop the active class from chips and all highlight
classes from circles and labels, and null the opacity style of every line;
stroke widths are NOT touched. -/
def unhighlightTokens (g : GraphSt) : GraphSt :=
  { g with
      chips := g.chips.map (fun c => { c with classes := classRemove "active" c.classes })
      circles := g.circles.map (fun n => { n with classes := removeHighlightClasses n.classes })
      labels := g.labels.map (fun n => { n with classes := classRemove "highlighted" n.classes })
      edges := g.edges.map (fun e => { e with opacityStyle := none }) }

/-- Edge state as drawWordToWordAttention leaves it after the entry animation:
stroke width max(2, strength*12), opacity attribute max(0.7, strength), no
opacity style, data-strength = strength.toFixed(3). -/
def baselineEdge (c : Connection) : EdgeView :=
  ⟨c.fromIndex, c.toIndex, toFixed3 c.strength,
    max 2 (c.strength * 12), max (7/10) c.strength, none⟩

/-- Circle state as drawWordNodes leaves it. -/
def baselineCircle (p : Pos) : NodeView := ⟨["token-circle", "word-token"], p.x, p.y⟩

/-- Label state as drawWordLabels leaves it. -/
def baselineLabel (p : Pos) : LabelView := ⟨["token-label", "word-label"], p.x, p.y + 30⟩

/-- Chip state as displayTokens leaves it. -/
def baselineChip : ChipView := ⟨["token", "fade-in"]⟩

/-- Full freshly-rendered state for the given chip count, positions and
selected connections. -/
def baselineGraph (nChips : ℕ) (ps : List Pos) (conns : List Connection) : GraphSt :=
  { chips := List.replicate nChips baselineChip
    circles := ps.map baselineCircle
    labels := ps.map baselineLabel
    edges := conns.map baselineEdge }

/-! ## Example token sequences from the spec -/

/-- Backend tokens message of the spec's end-to-end example. -/
def exampleTokens : List String :=
  ["[CLS]", "the", "cat", "chased", "the", "mouse", ".", "[SEP]"]

/-- Token sequence containing the single-character word "i". -/
def singleCharTokens : List String := ["[CLS]", "i", "run", ".", "[SEP]"]

/-! ## Concrete instances used by witnesses and counterexamples -/

/-- Two displayed tokens whose original indices are 0 and 1. -/
def psEx : List Pos :=
  [⟨0, 0, "cat", 0, 0⟩, ⟨0, 0, "mouse", 1, 1⟩]

/-- Square 2x2 attention matrix with entries 0.4 and 0.1 above the threshold. -/
def mEx : List (List ℚ) := [[0, 2/5], [1/10, 0]]

/-- Ragged matrix with a single row; every pair whose fromIdx is 1 is out of
bounds and must be silently omitted. -/
def mRagged : List (List ℚ) := [[0, 2/5]]

/-- The connection produced from positions psEx and matrix mEx at display pair
(0, 1). -/
def connEx : Connection := ⟨0, 1, 2/5, "cat", "mouse"⟩

/-- The connection produced from positions psEx and matrix mEx at display pair
(1, 0). -/
def connExBack : Connection := ⟨1, 0, 1/10, "mouse", "cat"⟩

/-- Relationships payload whose entries all have strength 0.02. -/
def relsPoint02 : List Rel := [⟨"cat", "mouse", 1/50⟩]

/-- Cosine values of the two-token layout: both angles (-pi/2 and pi/2) have
cosine 0. -/
def csPair : ℕ → ℚ := fun _ => 0

/-- Sine values of the two-token layout: sine -1 at angle -pi/2 (index 0) and
sine 1 at angle pi/2 (index 1). -/
def snPair : ℕ → ℚ := fun i => if i = 0 then -1 else 1

/-- Two token data entries entering the layout. -/
def tdsPair : List TokenDatum := [⟨"cat", 1, "cat"⟩, ⟨"mouse", 2, "mouse"⟩]

/-! ## Helper lemmas -/

theorem mem_listJoinMap {α β : Type} (f : α → List β) (l : List α) (b : β) :
    b ∈ listJoinMap f l ↔ ∃ a ∈ l, b ∈ f a := by
  induction l with
  | nil => simp [listJoinMap]
  | cons a rest ih => simp [listJoinMap, ih]

theorem mem_listFilterMap {α β : Type} (f : α → Option β) (l : List α) (b : β) :
    b ∈ listFilterMap f l ↔ ∃ a ∈ l, f a = some b := by
  induction l with
  | nil => simp [listFilterMap]
  | cons a rest ih =>
      cases h : f a with
      | none =>
          simp only [listFilterMap, h, ih, List.mem_cons]
          constructor
          · rintro ⟨c, hc, hfc⟩
            exact ⟨c, Or.inr hc, hfc⟩
          · rintro ⟨c, (rfl | hc), hfc⟩
            · rw [h] at hfc; cases hfc
            · exact ⟨c, hc, hfc⟩
      | some c =>
          simp only [listFilterMap, h, List.mem_cons, ih]
          constructor
          · rintro (rfl | ⟨d, hd, hfd⟩)
            · exact ⟨a, Or.inl rfl, h⟩
            · exact ⟨d, Or.inr hd, hfd⟩
          · rintro ⟨d, (rfl | hd), hfd⟩
            · rw [h] at hfd; injection hfd with h2; exact Or.inl h2.symm
            · exact Or.inr ⟨d, hd, hfd⟩

theorem mem_insertDescBy {α : Type} (key : α → ℚ) (a x : α) (l : List α) :
    x ∈ insertDescBy key a l ↔ x = a ∨ x ∈ l := by
  induction l with
  | nil => simp [insertDescBy]
  | cons b bs ih =>
      by_cases h : key b ≤ key a
      · simp [insertDescBy, h]
      · simp [insertDescBy, h, ih]
        tauto

theorem insertDescBy_perm {α : Type} (key : α → ℚ) (a : α) (l : List α) :
    (insertDescBy key a l).Perm (a :: l) := by
  induction l with
  | nil => simp [insertDescBy]
  | cons b bs ih =>
      by_cases h : key b ≤ key a
      · simp [insertDescBy, h]
      · simp only [insertDescBy, if_neg h]
        exact (ih.cons b).trans (List.Perm.swap a b bs)

theorem sortDescBy_perm {α : Type} (key : α → ℚ) (l : List α) :
    (sortDescBy key l).Perm l := by
  induction l with
  | nil => simp [sortDescBy]
  | cons a rest ih =>
      exact (insertDescBy_perm key a (sortDescBy key rest)).trans (ih.cons a)

theorem insertDescBy_pairwise {α : Type} (key : α → ℚ) (a : α) (l : List α)
    (h : l.Pairwise (fun u v => key v ≤ key u)) :
    (insertDescBy key a l).Pairwise (fun u v => key v ≤ key u) := by
  induction l with
  | nil => simp [insertDescBy]
  | cons b bs ih =>
      rcases List.pairwise_cons.mp h with ⟨hb, hbs⟩
      by_cases hba : key b ≤ key a
      · simp only [insertDescBy, if_pos hba]
        refine List.pairwise_cons.mpr ⟨?_, h⟩
        intro v hv
        rcases List.mem_cons.mp hv with rfl | hv
        · exact hba
        · exact le_trans (hb v hv) hba
      · simp only [insertDescBy, if_neg hba]
        refine List.pairwise_cons.mpr ⟨?_, ih hbs⟩
        intro v hv
        rcases (mem_insertDescBy key a v bs).mp hv with rfl | hv
        · exact le_of_lt (lt_of_not_le hba)
        · exact hb v hv

theorem sortDescBy_pairwise {α : Type} (key : α → ℚ) (l : List α) :
    (sortDescBy key l).Pairwise (fun u v => key v ≤ key u) := by
  induction l with
  | nil => simp [sortDescBy]
  | cons a rest ih => exact insertDescBy_pairwise key a _ ih

theorem filter_insertDescBy_pos {α : Type} (key : α → ℚ) (a : α) (l : List α) (q : ℚ)
    (h : key a = q) :
    (insertDescBy key a l).filter (fun x => decide (key x = q))
      = a :: l.filter (fun x => decide (key x = q)) := by
  induction l with
  | nil => simp [insertDescBy, List.filter, h]
  | cons b bs ih =>
      by_cases hba : key b ≤ key a
      · simp only [insertDescBy, if_pos hba]
        simp [List.filter_cons, h]
      · have hab : key a < key b := lt_of_not_le hba
        have hbq : ¬ (key b = q) := by
          intro e
          rw [h] at hab
          rw [e] at hab
          exact lt_irrefl q hab
        simp only [insertDescBy, if_neg hba]
        simp [List.filter_cons, hbq, ih]

theorem filter_insertDescBy_neg {α : Type} (key : α → ℚ) (a : α) (l : List α) (q : ℚ)
    (h : ¬ (key a = q)) :
    (insertDescBy key a l).filter (fun x => decide (key x = q))
      = l.filter (fun x => decide (key x = q)) := by
  induction l with
  | nil => simp [insertDescBy, List.filter, h]
  | cons b bs ih =>
      by_cases hba : key b ≤ key a
      · simp [insertDescBy, hba, List.filter_cons, h]
      · simp [insertDescBy, hba, List.filter_cons, ih]

theorem filter_sortDescBy {α : Type} (key : α → ℚ) (l : List α) (q : ℚ) :
    (sortDescBy key l).filter (fun x => decide (key x = q))
      = l.filter (fun x => decide (key x = q)) := by
  induction l with
  | nil => simp [sortDescBy]
  | cons a rest ih =>
      by_cases ha : key a = q
      · rw [sortDescBy, filter_insertDescBy_pos key a _ q ha, ih, List.filter_cons]
        simp [ha]
      · rw [sortDescBy, filter_insertDescBy_neg key a _ q ha, ih, List.filter_cons]
        simp [ha]

theorem enumFrom_get {α : Type} :
    ∀ (l : List α) (k i : ℕ) (a : α),
      (i, a) ∈ enumFrom k l → k ≤ i ∧ l[i - k]? = some a := by
  intro l
  induction l with
  | nil => intro k i a h; simp [enumFrom] at h
  | cons b rest ih =>
      intro k i a h
      simp only [enumFrom, List.mem_cons, Prod.mk.injEq] at h
      rcases h with ⟨h1, h2⟩ | h
      · subst h1; subst h2; simp
      · rcases ih (k + 1) i a h with ⟨hk, hget⟩
        refine ⟨by omega, ?_⟩
        have e : i - k = (i - (k + 1)) + 1 := by omega
        rw [e]
        simpa using hget

theorem candidate_spec (ps : List Pos) (m : List (List ℚ)) (c : Connection)
    (hc : c ∈ candidateConnections ps m) :
    c.fromIndex ≠ c.toIndex
      ∧ safeLookup ps m c.fromIndex c.toIndex = some c.strength
      ∧ 1/20 < c.strength := by
  rcases (mem_listJoinMap _ _ _).mp hc with ⟨ip, hip, hmem⟩
  obtain ⟨i1, p1⟩ := ip
  rcases (mem_listFilterMap _ _ _).mp hmem with ⟨jp, hjp, hsome⟩
  obtain ⟨j1, p2⟩ := jp
  dsimp only at hsome
  by_cases hij : i1 = j1
  · rw [if_pos hij] at hsome; cases hsome
  · rw [if_neg hij] at hsome
    cases hrow : m[p1.originalIndex]? with
    | none => simp only [hrow] at hsome; cases hsome
    | some row =>
      simp only [hrow] at hsome
      cases hval : row[p2.originalIndex]? with
      | none => simp only [hval] at hsome; cases hsome
      | some attention =>
        simp only [hval] at hsome
        by_cases hth : 1/20 < attention
        · rw [if_pos hth] at hsome
          injection hsome with he
          subst he
          rcases enumFrom_get ps 0 i1 p1 hip with ⟨-, hget1⟩
          rcases enumFrom_get ps 0 j1 p2 hjp with ⟨-, hget2⟩
          simp only [Nat.sub_zero] at hget1 hget2
          refine ⟨hij, ?_, hth⟩
          simp [safeLookup, hget1, hget2, hrow, hval]
        · rw [if_neg hth] at hsome; cases hsome


/-- Evaluation of the connection candidates for psEx against the ragged
one-row matrix: the pair (0, 1) is in bounds and kept, the pair (1, 0) has
fromIdx = 1 outside the matrix and is silently omitted. -/
theorem candidates_ragged_eval : candidateConnections psEx mRagged = [connEx] := by
  norm_num [candidateConnections, psEx, mRagged, enumFrom, listJoinMap, listFilterMap, connEx]

/-- Evaluation of the selector on psEx and the square matrix mEx. -/
theorem topConnections_eval : topConnections psEx mEx = [connEx, connExBack] := by
  norm_num [topConnections, candidateConnections, psEx, mEx, enumFrom, listJoinMap,
    listFilterMap, connEx, connExBack, sortDescBy, insertDescBy]

/-! ## Claim theorems -/

/-- C1: for every attention matrix and every list of displayed positions, the
Connection Selector output has length at most 12, every selected strength
strictly exceeds 0.05, the output is sorted non-increasing by strength with
ties kept in the row-major enumeration order (the filter at any fixed strength
is unchanged by the stable sort), and the draw step signals the
no-visualization message exactly when no pair passes the threshold. -/
theorem c1_connection_selector :
    (∀ ps m, (topConnections ps m).length ≤ 12)
  ∧ (∀ ps m c, c ∈ topConnections ps m → 1/20 < c.strength)
  ∧ (∀ ps m, (topConnections ps m).Pairwise (fun a b => b.strength ≤ a.strength))
  ∧ (∀ ps m q,
      (sortDescBy Connection.strength (candidateConnections ps m)).filter
          (fun c => decide (c.strength = q))
        = (candidateConnections ps m).filter (fun c => decide (c.strength = q)))
  ∧ (∀ ps m, drawWordToWordAttention ps m = none ↔ candidateConnections ps m = []) := by
  refine ⟨?_, ?_, ?_, ?_, ?_⟩
  · intro ps m
    simp [topConnections, List.length_take]
  · intro ps m c hc
    have hsort : c ∈ sortDescBy Connection.strength (candidateConnections ps m) :=
      List.take_subset 12 _ hc
    have hcand : c ∈ candidateConnections ps m :=
      (sortDescBy_perm Connection.strength _).mem_iff.mp hsort
    exact (candidate_spec ps m c hcand).2.2
  · intro ps m
    exact List.Pairwise.sublist (List.take_sublist 12 _)
      (sortDescBy_pairwise Connection.strength _)
  · intro ps m q
    exact filter_sortDescBy Connection.strength _ q
  · intro ps m
    have hlen := (sortDescBy_perm Connection.strength (candidateConnections ps m)).length_eq
    have htopiff : topConnections ps m = [] ↔ candidateConnections ps m = [] := by
      unfold topConnections
      rw [List.take_eq_nil_iff]
      constructor
      · rintro (h12 | hnil)
        · cases h12
        · rw [hnil] at hlen
          simp only [List.length_nil] at hlen
          exact List.length_eq_zero.mp hlen.symm
      · intro hnil
        right
        have h0 : (sortDescBy Connection.strength (candidateConnections ps m)).length = 0 := by
          rw [hlen, hnil]
          simp
        exact List.length_eq_zero.mp h0
    unfold drawWordToWordAttention
    cases hcase : (topConnections ps m).isEmpty with
    | true =>
        have h1 : topConnections ps m = [] := by
          simpa using hcase
        simp [hcase, htopiff.mp h1]
    | false =>
        have h1 : topConnections ps m ≠ [] := by
          intro e
          rw [e] at hcase
          simp [List.isEmpty] at hcase
        have h2 : candidateConnections ps m ≠ [] := fun e => h1 (htopiff.mpr e)
        simp [hcase, h2]

/-- Witness for C1 at the concrete positions psEx and matrix mEx: the selected
edge cat to mouse carries strength 0.4, above the threshold. -/
theorem c1_connection_selector_witness :
    topConnections psEx mEx = [connEx, connExBack] ∧ (1:ℚ)/20 < 2/5 :=
  ⟨topConnections_eval,
    c1_connection_selector.2.1 psEx mEx connEx
      (by rw [topConnections_eval]; exact List.mem_cons_self connEx [connExBack])⟩

/-- C10: the enumeration loop of drawWordToWordAttention never reads outside
the matrix: every produced candidate comes from an in-bounds entry of the
possibly ragged matrix reached through the Option-safe lookup, and any ordered
pair whose lookup is out of bounds is absent from the candidates. -/
theorem c10_matrix_bounds_safety :
    (∀ ps m c, c ∈ candidateConnections ps m →
      c.fromIndex ≠ c.toIndex
        ∧ safeLookup ps m c.fromIndex c.toIndex = some c.strength
        ∧ 1/20 < c.strength)
  ∧ (∀ ps m i j, safeLookup ps m i j = none →
      ∀ c ∈ candidateConnections ps m, ¬ (c.fromIndex = i ∧ c.toIndex = j)) := by
  refine ⟨fun ps m c hc => candidate_spec ps m c hc, ?_⟩
  intro ps m i j hnone c hc hij
  obtain ⟨h1, h2⟩ := hij
  rcases candidate_spec ps m c hc with ⟨-, hlook, -⟩
  rw [h1, h2] at hlook
  rw [hnone] at hlook
  cases hlook

/-- Witness for C10 on the ragged one-row matrix: the surviving candidate is
exactly the in-bounds pair, with its strength read through the safe lookup;
the out-of-bounds pair (1, 0) was omitted without any error. -/
theorem c10_matrix_bounds_safety_witness :
    candidateConnections psEx mRagged = [connEx]
  ∧ (connEx.fromIndex ≠ connEx.toIndex
      ∧ safeLookup psEx mRagged connEx.fromIndex connEx.toIndex = some connEx.strength
      ∧ 1/20 < connEx.strength) :=
  ⟨candidates_ragged_eval,
    c10_matrix_bounds_safety.1 psEx mRagged connEx
      (by rw [candidates_ragged_eval]; exact List.mem_singleton_self connEx)⟩

/-- C2: the claim that partial lines are buffered across chunk boundaries is
contradicted by the code: handleSSEStream splits each decoded chunk on its own,
so for the two chunks "data: ab" and "cd" + newline, whose concatenation
contains the well-formed frame "abcd", the code parses nothing at all, while a
buffering consumer parses the frame exactly once. -/
theorem c2_stream_buffering_bug :
    handleSSEStreamFrames (fun s => s == "abcd") ["data: ab", "cd\n"] = []
  ∧ concatenatedFrames (fun s => s == "abcd") ["data: ab", "cd\n"] = ["abcd"] := by
  decide

/-- C3: there is no requestId in the code and no stream is ever aborted, so a
stale message is applied: in the trace where session 1 errors, session 2
starts, and the still-open stream 1 then delivers a tokens frame, the final
state holds the stale tokens and stream 1 is still open. -/
theorem c3_stale_messages_bug :
    (runSession staleTrace).currentTokens = ["stale"]
  ∧ 1 ∈ (runSession staleTrace).openStreams
  ∧ (runSession staleTrace).isProcessing = true := by
  decide

/-- C5: on the spec example, displayTokens derives each chip index with
tokens.indexOf, so the second occurrence of "the" receives the first
occurrence index 1, giving [1, 2, 3, 1, 5] instead of the claimed strictly
increasing [1, 2, 3, 4, 5]; the graph path filteredTokenData carries the true
per-position index and yields [1, 2, 3, 4, 5]. -/
theorem c5_original_index_bug :
    ((displayTokensChips exampleTokens).map Prod.fst
        = ["the", "cat", "chased", "the", "mouse"])
  ∧ ((displayTokensChips exampleTokens).map Prod.snd = [1, 2, 3, 1, 5])
  ∧ strictlyIncreasing ((displayTokensChips exampleTokens).map Prod.snd) = false
  ∧ ((filteredTokenData exampleTokens).map TokenDatum.originalIndex = [1, 2, 3, 4, 5]) := by
  decide

/-- C9: the debounced path never issues a request for empty input and hides
the visualization, but the Ctrl+Enter path calls processText directly, which
only checks the isProcessing flag, so an empty submission issues a request with
the empty text and hides nothing. -/
theorem c9_empty_input_bug :
    debounceTimerFires false "" = { requests := [], hidVisualization := true }
  ∧ strTrim "" = ""
  ∧ keydownCtrlEnter false "" = { requests := [""], hidVisualization := false }
  ∧ ({ requests := [""], hidVisualization := false } : InputEffects).requests ≠ [] := by
  decide

/-- Bool equivalence between the positivity test and the zero test on Nat. -/
theorem decide_pos_eq (n : ℕ) : decide (0 < n) = !(n == 0) := by
  cases n <;> simp

/-- The displayTokens filter keeps a token exactly when the spec's exclusion
rules do not exclude it. -/
theorem meaningful_eq_not_excluded (t : String) :
    isMeaningfulToken t = !(specExcludedToken t) := by
  simp [isMeaningfulToken, specExcludedToken, Bool.not_or, bne, decide_pos_eq]

/-- The graph-view filter equals the spec's rules strengthened by the extra
length-greater-than-1 requirement. -/
theorem viz_keep_eq (t : String) :
    vizKeepToken t = (!(specExcludedToken t) && decide (1 < t.length)) := by
  by_cases hl : 1 < t.length
  · have h0 : (t.length == 0) = false := by
      simp
      omega
    have hdot : (t == ".") = false := by
      cases he : t == "."
      · rfl
      · exfalso
        have ht : t = "." := eq_of_beq he
        rw [ht] at hl
        exact absurd hl (by decide)
    have hcomma : (t == ",") = false := by
      cases he : t == ","
      · rfl
      · exfalso
        have ht : t = "," := eq_of_beq he
        rw [ht] at hl
        exact absurd hl (by decide)
    have hbang : (t == "!") = false := by
      cases he : t == "!"
      · rfl
      · exfalso
        have ht : t = "!" := eq_of_beq he
        rw [ht] at hl
        exact absurd hl (by decide)
    have hq : (t == "?") = false := by
      cases he : t == "?"
      · rfl
      · exfalso
        have ht : t = "?" := eq_of_beq he
        rw [ht] at hl
        exact absurd hl (by decide)
    simp [vizKeepToken, specExcludedToken, Bool.not_or, bne, hl, h0, hdot, hcomma, hbang, hq]
  · simp [vizKeepToken, hl]

/-- Token projection of the enumerate-map-filter pipeline used by
filteredTokenData. -/
theorem filteredTokenData_map_token_aux (p : String → Bool) :
    ∀ (l : List String) (k : ℕ),
      (((enumFrom k l).map (fun q => (⟨q.2, q.1, cleanHH q.2⟩ : TokenDatum))).filter
          (fun d => p d.token)).map TokenDatum.token
        = l.filter p := by
  intro l
  induction l with
  | nil => intro k; simp [enumFrom]
  | cons t rest ih =>
      intro k
      simp only [enumFrom, List.map_cons, List.filter_cons]
      cases hp : p t with
      | true => simp [hp, ih]
      | false => simp [hp, ih]

/-- C6 (amended): the chip-list classifier of displayTokens keeps exactly the
ordered subsequence of tokens not excluded by the stated rules (displayed
verbatim), while the visualization classifier of renderAttentionVisualization
keeps exactly the non-excluded tokens that additionally have length at least
2, dropping every single-character word. -/
theorem c6_token_classifier_amended :
    (∀ tokens, (displayTokensChips tokens).map Prod.fst
        = tokens.filter (fun t => !(specExcludedToken t)))
  ∧ (∀ tokens, (filteredTokenData tokens).map TokenDatum.token
        = tokens.filter (fun t => !(specExcludedToken t) && decide (1 < t.length))) := by
  constructor
  · intro tokens
    unfold displayTokensChips
    rw [List.map_map]
    have hid : (Prod.fst ∘ fun t => ((t, jsIndexOf tokens t) : String × ℤ))
        = fun t => t := rfl
    rw [hid, List.map_id']
    exact List.filter_congr (fun t _ => meaningful_eq_not_excluded t)
  · intro tokens
    unfold filteredTokenData
    rw [filteredTokenData_map_token_aux vizKeepToken tokens 0]
    exact List.filter_congr (fun t _ => viz_keep_eq t)

/-- C6 counterexample: on the token sequence with the single-character word
"i", the visualization classifier outputs ["run"], not the subsequence
["i", "run"] dictated by the claim's exclusion rules, so the claim as stated
is false. -/
theorem c6_token_classifier_counterexample :
    ((filteredTokenData singleCharTokens).map TokenDatum.token = ["run"])
  ∧ (singleCharTokens.filter (fun t => !(specExcludedToken t)) = ["i", "run"])
  ∧ (["run"] : List String) ≠ ["i", "run"] := by
  decide

/-- C7: the Relationship List Builder keeps exactly the entries whose two
tokens pass the word filter and whose strength strictly exceeds 0.03, sorts
descending, truncates to 8; a payload whose strengths are all 0.02 yields the
empty list even though the Connection Selector with its own threshold returns
a non-empty output on psEx and mEx. -/
theorem c7_relationship_builder :
    (∀ rels, (displayRelationships rels).length ≤ 8)
  ∧ (∀ rels r, r ∈ displayRelationships rels →
      isWordToken r.from_token = true ∧ isWordToken r.to_token = true
        ∧ (3:ℚ)/100 < r.strength)
  ∧ (∀ rels, (displayRelationships rels).Pairwise (fun a b => b.strength ≤ a.strength))
  ∧ (∀ rels, (∀ r ∈ rels, r.strength = 1/50) → displayRelationships rels = [])
  ∧ (displayRelationships relsPoint02 = [] ∧ topConnections psEx mEx ≠ []) := by
  have hempty : ∀ rels, (∀ r ∈ rels, r.strength = 1/50) → displayRelationships rels = [] := by
    intro rels h
    unfold displayRelationships
    have hfil : rels.filter (fun r =>
        isWordToken r.from_token && isWordToken r.to_token
          && decide ((3:ℚ)/100 < r.strength)) = [] := by
      rw [List.filter_eq_nil_iff]
      intro r hr
      rw [h r hr]
      norm_num
    rw [hfil]
    simp [sortDescBy]
  refine ⟨?_, ?_, ?_, hempty, ?_, ?_⟩
  · intro rels
    simp [displayRelationships, List.length_take]
  · intro rels r hr
    have hsort : r ∈ sortDescBy Rel.strength (rels.filter (fun r =>
        isWordToken r.from_token && isWordToken r.to_token
          && decide ((3:ℚ)/100 < r.strength))) :=
      List.take_subset 8 _ hr
    have hfil := (sortDescBy_perm Rel.strength _).mem_iff.mp hsort
    rcases List.mem_filter.mp hfil with ⟨-, hcond⟩
    simp only [Bool.and_eq_true, decide_eq_true_eq] at hcond
    obtain ⟨⟨h1, h2⟩, h3⟩ := hcond
    exact ⟨h1, h2, h3⟩
  · intro rels
    exact List.Pairwise.sublist (List.take_sublist 8 _)
      (sortDescBy_pairwise Rel.strength _)
  · exact hempty relsPoint02 (by
      intro r hr
      simp only [relsPoint02, List.mem_singleton] at hr
      rw [hr])
  · rw [topConnections_eval]
    simp

/-- Witness for C7: the all-0.02 payload produces the empty relationship
list. -/
theorem c7_relationship_builder_witness :
    displayRelationships relsPoint02 = [] :=
  c7_relationship_builder.2.2.2.1 relsPoint02 (by
    intro r hr
    simp only [relsPoint02, List.mem_singleton] at hr
    rw [hr])


/-- listMin bounds every member from below. -/
theorem listMin_le (l : List ℚ) : ∀ q ∈ l, listMin l ≤ q := by
  induction l with
  | nil => intro q hq; cases hq
  | cons a rest ih =>
      intro q hq
      cases rest with
      | nil =>
          rcases List.mem_singleton.mp hq with rfl
          exact le_refl q
      | cons b rest2 =>
          rcases List.mem_cons.mp hq with rfl | hq2
          · exact min_le_left _ _
          · exact le_trans (min_le_right _ _) (ih q hq2)

/-- listMax bounds every member from above. -/
theorem le_listMax (l : List ℚ) : ∀ q ∈ l, q ≤ listMax l := by
  induction l with
  | nil => intro q hq; cases hq
  | cons a rest ih =>
      intro q hq
      cases rest with
      | nil =>
          rcases List.mem_singleton.mp hq with rfl
          exact le_refl q
      | cons b rest2 =>
          rcases List.mem_cons.mp hq with rfl | hq2
          · exact le_max_left _ _
          · exact le_trans (ih q hq2) (le_max_right _ _)

/-- C4 (amended): for every layout invocation with at least two displayed
tokens and viewport dimensions W and H both at least 200, every returned
position, whether from the first pass or from the reduced safe-radius second
pass, satisfies padding at most x at most W - padding and padding at most y
at most H - padding with padding 50; cs and sn are the cosine and sine values
of the per-index angles, bounded by 1 in absolute value. -/
theorem c4_layout_bounds_amended (tds : List TokenDatum) (W H : ℚ) (cs sn : ℕ → ℚ)
    (_hM : 2 ≤ tds.length) (hW : 200 ≤ W) (hH : 200 ≤ H)
    (hcs : ∀ i, |cs i| ≤ 1) (hsn : ∀ i, |sn i| ≤ 1) :
    ∀ p ∈ layoutPositions tds W H cs sn,
      50 ≤ p.x ∧ p.x ≤ W - 50 ∧ 50 ≤ p.y ∧ p.y ≤ H - 50 := by
  intro p hp
  unfold layoutPositions at hp
  split at hp
  case isTrue hc =>
    unfold circlePositions at hp
    rcases List.mem_map.mp hp with ⟨q, hqmem, hq⟩
    obtain ⟨i, d⟩ := q
    subst hq
    have hA : (0:ℚ) ≤ (W * (5/10) - 2 * layoutPadding) / 2 := by
      unfold layoutPadding
      linarith
    have hB : (0:ℚ) ≤ (H - 2 * layoutPadding) / 2 := by
      unfold layoutPadding
      linarith
    have h0sr : 0 ≤ layoutSafeRadius W H := by
      unfold layoutSafeRadius
      have := le_min hA hB
      nlinarith [le_min hA hB]
    have hsr1 : layoutSafeRadius W H ≤ W * (2/10) - 40 := by
      unfold layoutSafeRadius layoutPadding
      have h := min_le_left ((W * (5/10) - 2 * 50) / 2) ((H - 2 * 50) / 2)
      nlinarith
    have hsr2 : layoutSafeRadius W H ≤ H * (4/10) - 40 := by
      unfold layoutSafeRadius layoutPadding
      have h := min_le_right ((W * (5/10) - 2 * 50) / 2) ((H - 2 * 50) / 2)
      nlinarith
    have hxabs : |layoutSafeRadius W H * cs i| ≤ layoutSafeRadius W H := by
      rw [abs_mul]
      calc |layoutSafeRadius W H| * |cs i|
          ≤ |layoutSafeRadius W H| * 1 :=
            mul_le_mul_of_nonneg_left (hcs i) (abs_nonneg _)
        _ = layoutSafeRadius W H := by rw [mul_one, abs_of_nonneg h0sr]
    have hyabs : |layoutSafeRadius W H * sn i| ≤ layoutSafeRadius W H := by
      rw [abs_mul]
      calc |layoutSafeRadius W H| * |sn i|
          ≤ |layoutSafeRadius W H| * 1 :=
            mul_le_mul_of_nonneg_left (hsn i) (abs_nonneg _)
        _ = layoutSafeRadius W H := by rw [mul_one, abs_of_nonneg h0sr]
    rcases abs_le.mp hxabs with ⟨hx1, hx2⟩
    rcases abs_le.mp hyabs with ⟨hy1, hy2⟩
    unfold layoutCenterX layoutCenterY
    refine ⟨?_, ?_, ?_, ?_⟩
    · show 50 ≤ W * (35/100) + layoutSafeRadius W H * cs i
      linarith
    · show W * (35/100) + layoutSafeRadius W H * cs i ≤ W - 50
      linarith
    · show 50 ≤ H * (45/100) + layoutSafeRadius W H * sn i
      linarith
    · show H * (45/100) + layoutSafeRadius W H * sn i ≤ H - 50
      linarith
  case isFalse hc =>
    unfold layoutOutOfBounds at hc
    push_neg at hc
    obtain ⟨h1, h2, h3, h4⟩ := hc
    have hxmem : p.x ∈ (layoutFirstPass tds W H cs sn).map Pos.x :=
      List.mem_map_of_mem Pos.x hp
    have hymem : p.y ∈ (layoutFirstPass tds W H cs sn).map Pos.y :=
      List.mem_map_of_mem Pos.y hp
    unfold layoutPadding at h1 h2 h3 h4
    exact ⟨le_trans h1 (listMin_le _ _ hxmem),
      le_trans (le_listMax _ _ hxmem) h2,
      le_trans h3 (listMin_le _ _ hymem),
      le_trans (le_listMax _ _ hymem) h4⟩


/-- On the 100 x 650 viewport the first pass violates the bounding box (its
x-coordinates are all 35), so the second pass is taken. -/
theorem c4_oob_small : layoutOutOfBounds tdsPair 100 650 csPair snPair := by
  unfold layoutOutOfBounds
  left
  norm_num [layoutFirstPass, circlePositions, enumFrom, tdsPair, csPair, snPair,
    layoutCenterX, layoutCenterY, layoutRadius, layoutPadding, listMin, min_def]

/-- On the 100 x 650 viewport even the recomputed second-pass positions have
x = 35: the safe radius is negative there and centerX = 35 is itself below the
padding. -/
theorem c4_layout_small_eval :
    (layoutPositions tdsPair 100 650 csPair snPair).map Pos.x = [35, 35] := by
  unfold layoutPositions
  rw [if_pos c4_oob_small]
  norm_num [circlePositions, enumFrom, tdsPair, csPair, snPair,
    layoutCenterX, layoutCenterY, layoutSafeRadius, layoutPadding, min_def]

/-- C4 counterexample: with two displayed tokens on viewport W = 100,
H = 650, every returned position has x = 35 less than 50 = padding, so the claim's
bound fails for these viewport dimensions even after the safe-radius second
pass. -/
theorem c4_layout_bounds_counterexample :
    ((layoutPositions tdsPair 100 650 csPair snPair).map Pos.x = [35, 35])
  ∧ ¬ ((50:ℚ) ≤ 35) := by
  refine ⟨c4_layout_small_eval, by norm_num⟩

/-- On the default 800 x 650 viewport the first pass stays in bounds. -/
theorem c4_noob_default : ¬ layoutOutOfBounds tdsPair 800 650 csPair snPair := by
  unfold layoutOutOfBounds
  push_neg
  refine ⟨?_, ?_, ?_, ?_⟩ <;>
    norm_num [layoutFirstPass, circlePositions, enumFrom, tdsPair, csPair, snPair,
      layoutCenterX, layoutCenterY, layoutRadius, layoutPadding, listMin, listMax,
      min_def, max_def]

/-- Layout evaluation on the default 800 x 650 viewport. -/
theorem c4_layout_default_eval :
    layoutPositions tdsPair 800 650 csPair snPair
      = [⟨280, 305/2, "cat", 1, 0⟩, ⟨280, 865/2, "mouse", 2, 1⟩] := by
  unfold layoutPositions
  rw [if_neg c4_noob_default]
  norm_num [layoutFirstPass, circlePositions, enumFrom, tdsPair, csPair, snPair,
    layoutCenterX, layoutCenterY, layoutRadius, layoutPadding, min_def]

/-- Witness for the amended C4 at the concrete 800 x 650 viewport: the first
returned position (280, 152.5) satisfies all four padding bounds. -/
theorem c4_layout_bounds_witness :
    (50:ℚ) ≤ 280 ∧ (280:ℚ) ≤ 800 - 50 ∧ (50:ℚ) ≤ 305/2 ∧ (305/2:ℚ) ≤ 650 - 50 :=
  c4_layout_bounds_amended tdsPair 800 650 csPair snPair
    (by norm_num [tdsPair]) (by norm_num) (by norm_num)
    (fun i => by norm_num [csPair])
    (fun i => by
      unfold snPair
      split <;> norm_num)
    ⟨280, 305/2, "cat", 1, 0⟩
    (by rw [c4_layout_default_eval]; exact List.mem_cons_self _ _)


/-- Enumeration of a mapped list. -/
theorem enumFrom_map {α β : Type} (f : α → β) :
    ∀ (l : List α) (k : ℕ),
      enumFrom k (l.map f) = (enumFrom k l).map (fun p => (p.1, f p.2)) := by
  intro l
  induction l with
  | nil => intro k; simp [enumFrom]
  | cons a rest ih => intro k; simp [enumFrom, ih]

/-- Mapping the payload of an enumeration forgets the indices. -/
theorem map_enumFrom_snd {α β : Type} (g : α → β) :
    ∀ (l : List α) (k : ℕ), (enumFrom k l).map (fun p => g p.2) = l.map g := by
  intro l
  induction l with
  | nil => intro k; simp [enumFrom]
  | cons a rest ih => intro k; simp [enumFrom, ih]

/-- C8 (amended): from a freshly rendered state, highlightWordConnections(i)
followed by unhighlightTokens restores every class list, every opacity (the
style layer is nulled back and the attribute layer was never touched), every
position, and the element structure of all three views; the ONLY residue is
that every edge keeps the stroke width the highlight assigned it, max(4, 18 s)
for edges incident to i and max(2, 12 s) otherwise, instead of the baseline
max(2, 12 s). -/
theorem c8_highlight_clear_amended (nChips : ℕ) (ps : List Pos) (conns : List Connection)
    (i : ℕ) :
    unhighlightTokens (highlightWordConnections i (baselineGraph nChips ps conns))
      = { baselineGraph nChips ps conns with
            edges := (baselineGraph nChips ps conns).edges.map (fun e =>
              { e with strokeWidth :=
                  if e.dataFrom = i ∨ e.dataTo = i then max 4 (e.dataStrength * 18)
                  else max 2 (e.dataStrength * 12) }) } := by
  simp only [unhighlightTokens, highlightWordConnections, baselineGraph, List.map_map,
    GraphSt.mk.injEq]
  refine ⟨?_, ?_, ?_, ?_⟩
  · rw [List.map_replicate]
    have h : (({ baselineChip with
        classes := classRemove "active" baselineChip.classes }) : ChipView)
        = baselineChip := by decide
    rw [h]
  · rw [enumFrom_map baselineCircle ps 0, List.map_map]
    have hrhs : ps.map baselineCircle
        = (enumFrom 0 ps).map (fun p => baselineCircle p.2) :=
      (map_enumFrom_snd baselineCircle ps 0).symm
    rw [hrhs]
    apply List.map_congr_left
    intro p hp
    by_cases hpi : p.1 = i
    · simp only [Function.comp, hpi, if_pos rfl]
      have h : removeHighlightClasses (classAdd "highlighted" (baselineCircle p.2).classes)
          = (baselineCircle p.2).classes := by
        simp [baselineCircle]
        decide
      simp [h]
    · simp only [Function.comp, if_neg hpi]
      have h : removeHighlightClasses (removeHighlightClasses (baselineCircle p.2).classes)
          = (baselineCircle p.2).classes := by
        simp [baselineCircle]
        decide
      simp [h]
  · rw [enumFrom_map baselineLabel ps 0, List.map_map]
    have hrhs : ps.map baselineLabel
        = (enumFrom 0 ps).map (fun p => baselineLabel p.2) :=
      (map_enumFrom_snd baselineLabel ps 0).symm
    rw [hrhs]
    apply List.map_congr_left
    intro p hp
    by_cases hpi : p.1 = i
    · simp only [Function.comp, hpi, if_pos rfl]
      have h : classRemove "highlighted" (classAdd "highlighted" (baselineLabel p.2).classes)
          = (baselineLabel p.2).classes := by
        simp [baselineLabel]
        decide
      simp [h]
    · simp only [Function.comp, if_neg hpi]
      have h : classRemove "highlighted" (classRemove "highlighted" (baselineLabel p.2).classes)
          = (baselineLabel p.2).classes := by
        simp [baselineLabel]
        decide
      simp [h]
  · apply List.map_congr_left
    intro c hc
    by_cases hinc : c.fromIndex = i ∨ c.toIndex = i
    · simp [Function.comp, baselineEdge, hinc]
    · simp [Function.comp, baselineEdge, hinc]


/-- 0.4 is exact at three decimal places. -/
theorem toFixed3_point4 : toFixed3 (2/5) = 2/5 := by
  unfold toFixed3
  have h1 : ((2:ℚ)/5 * 1000 + 1/2) = 801/2 := by norm_num
  rw [h1]
  have h2 : (Int.floor ((801:ℚ)/2) : ℤ) = 400 := by
    rw [Int.floor_eq_iff]
    constructor <;> norm_num
  rw [h2]
  norm_num

/-- C8 counterexample: for the single edge of strength 0.4 incident to node 0,
highlightWordConnections(0) followed by unhighlightTokens leaves the stroke
width at 7.2 whereas the pre-highlight width was 4.8, so the claim that clear
restores the same stroke widths is false. -/
theorem c8_stroke_width_counterexample :
    ((unhighlightTokens (highlightWordConnections 0 (baselineGraph 2 psEx [connEx]))).edges.map
        EdgeView.strokeWidth = [36/5])
  ∧ ((baselineGraph 2 psEx [connEx]).edges.map EdgeView.strokeWidth = [24/5])
  ∧ ((36:ℚ)/5 ≠ 24/5) := by
  refine ⟨?_, ?_, by norm_num⟩
  · simp [unhighlightTokens, highlightWordConnections, baselineGraph, baselineEdge,
      connEx, toFixed3_point4, psEx, baselineCircle, baselineLabel, enumFrom]
    norm_num [max_def]
  · simp [baselineGraph, baselineEdge, connEx]
    norm_num [max_def]

end Attn
